import Mathlib

/-!
Verification of the windowed query / gap-analysis / frequency-counting engine
of the influx_data_grab repository.

The embedding follows the source files:
  - ramana.py, get_frequency: the windowed engine (window scheduler, gap
    detector, effective-duration calculator, channel frequency counter);
  - 1.0.7.py, get_count_for_field / load_measurements_fields / run_queries:
    the store-side aggregate mode and the file-based channel map loader.

Instants and durations are modelled as integers (seconds since the epoch;
the source floors nanoseconds to whole seconds with integer division).
A retrieved point is a Row: the vehicle tag, the timestamp, and the columns
returned by the store, each column holding an optional (possibly null) value.
The store is modelled as the list of rows it holds, in time-ascending order
(the queries in the source request ORDER BY time ASC); a bounded window query
filters the rows by vehicle and half-open time window and truncates to the
row cap, exactly as the SELECT with LIMIT in the source does.
-/

namespace InfluxGrab

/-- One retrieved sample row: vehicle tag, timestamp in whole seconds,
and the returned columns (field name to optional value). -/
structure Row where
  vehicle : String
  time : Int
  cols : List (String × Option Int)

/-- The WHERE clause of the per-window query in ramana.py:
vehicle_id matches and time lies in the half-open window. -/
def rowMatch (v : String) (a b : Int) (r : Row) : Bool :=
  r.vehicle == v && decide (a ≤ r.time) && decide (r.time < b)

/-- The bounded window query of ramana.py line 20: all rows for the vehicle
with a ≤ time < b, in store order (time ascending), capped at the row limit. -/
def fetchWindow (store : List Row) (v : String) (limit : Nat) (a b : Int) : List Row :=
  (store.filter (rowMatch v a b)).take limit

/-- A field is present and non-null in a row (pandas count skips both a
missing column entry and a null value). -/
def fieldPresent (f : String) (r : Row) : Bool :=
  match r.cols.lookup f with
  | some (some _) => true
  | _ => false

/-- A column exists in a concatenated frame: some row carries the key.
pandas raises KeyError on a column access when no row carries the key. -/
def hasCol (rows : List Row) (f : String) : Bool :=
  rows.any (fun r => r.cols.any (fun kv => kv.1 == f))

/-- concatenated_data[field].count() of ramana.py line 63: the number of rows
whose value for the field is present and non-null. -/
def colCount (rows : List Row) (f : String) : Nat :=
  rows.countP (fieldPresent f)

/-- The server-side aggregate of 1.0.7.py get_count_for_field: COUNT(field)
over the rows matching the vehicle and the half-open range. -/
def aggregateCount (store : List Row) (v f : String) (a b : Int) : Nat :=
  (store.filter (rowMatch v a b)).countP (fieldPresent f)

/-- Successive timestamp deltas within a batch, as produced by
data.epoch.diff() in ramana.py line 40 (the first row has no delta). -/
def diffs : List Int → List Int
  | a :: b :: rest => (b - a) :: diffs (b :: rest)
  | _ => []

/-- The per-batch gap contribution of ramana.py lines 43-46: the deltas
strictly greater than the threshold are the gaps, and the batch adds
gaps.sum - threshold * gaps.length to the accumulated gap duration. -/
def batchGap (ts : List Int) (thr : Int) : Int :=
  let gaps := (diffs ts).filter (fun d => decide (thr < d))
  gaps.sum - thr * gaps.length

/-- The window schedule of the while-loop in ramana.py lines 17-50: starting
at s, emit the window [cur, cur + w) and step cur by w while cur < e.  The
loop does not truncate the final window to e. -/
def windows (s e w : Int) : List (Int × Int) :=
  if _h : 0 < w ∧ s < e then (s, s + w) :: windows (s + w) e w else []
termination_by (e - s).toNat
decreasing_by omega

/-- Effective duration of ramana.py line 54: range length minus the
accumulated gap duration, with no clamping. -/
def effectiveTime (s e gap : Int) : Int := (e - s) - gap

/-- One iteration of the window loop body after the query returned: an empty
batch is skipped, a non-empty batch adds its gap contribution and is
appended to the accumulator of all data (ramana.py lines 37-48). -/
def gapStep (thr : Int) (acc : Int × List (List Row)) (rows : List Row) :
    Int × List (List Row) :=
  if rows.isEmpty then acc
  else (acc.1 + batchGap (rows.map Row.time) thr, acc.2 ++ [rows])

/-- The window loop of ramana.py from an arbitrary accumulator state: fetch
each window through the client and fold the gap/data accumulator.  A client
failure is not caught anywhere in get_frequency, so it propagates out. -/
def runWindowsFrom (client : Int → Int → Except String (List Row)) (thr : Int)
    (acc : Int × List (List Row)) (ws : List (Int × Int)) :
    Except String (Int × List (List Row)) :=
  ws.foldlM (fun acc win => do
    let rows ← client win.1 win.2
    pure (gapStep thr acc rows)) acc

/-- The window loop of ramana.py, started from zero accumulated gap duration
and an empty data accumulator (lines 13-14). -/
def runWindows (client : Int → Int → Except String (List Row)) (thr : Int)
    (ws : List (Int × Int)) : Except String (Int × List (List Row)) :=
  runWindowsFrom client thr (0, []) ws

/-- The zero-filled frequency dictionary of ramana.py line 6. -/
def zeroTable (canIdFields : List (String × List String)) :
    List (String × List (String × Nat)) :=
  canIdFields.map (fun cf => (cf.1, cf.2.map (fun f => (f, 0))))

/-- The counting loop of ramana.py lines 61-63 over the concatenated data:
each mapped field is counted with concatenated_data[field].count(), which
raises KeyError when the column is absent from every row. -/
def countTable (conc : List Row) (canIdFields : List (String × List String)) :
    Except String (List (String × List (String × Nat))) :=
  canIdFields.mapM (fun cf =>
    (cf.2.mapM (fun f =>
      if hasCol conc f then Except.ok (f, colCount conc f)
      else Except.error ("KeyError: " ++ f))).map (fun counts => (cf.1, counts)))

/-- get_frequency of ramana.py: schedule the windows, run the window loop,
compute the effective duration, and fill the frequency table (left at its
zero initial value when no window returned data). -/
def getFrequency (client : Int → Int → Except String (List Row))
    (canIdFields : List (String × List String)) (s e w thr : Int) :
    Except String (List (String × List (String × Nat)) × Int) := do
  let (gap, allData) ← runWindows client thr (windows s e w)
  let eff := effectiveTime s e gap
  if allData.isEmpty then
    pure (zeroTable canIdFields, eff)
  else do
    let table ← countTable allData.flatten canIdFields
    pure (table, eff)

/-- The InfluxDB client of the source, specialised to an in-memory store:
each window query succeeds and returns the bounded window result. -/
def storeClient (store : List Row) (v : String) (limit : Nat) :
    Int → Int → Except String (List Row) :=
  fun a b => Except.ok (fetchWindow store v limit a b)

/-- get_frequency run against an in-memory store. -/
def getFrequencyStore (store : List Row) (v : String) (limit : Nat)
    (canIdFields : List (String × List String)) (s e w thr : Int) :
    Except String (List (String × List (String × Nat)) × Int) :=
  getFrequency (storeClient store v limit) canIdFields s e w thr

/-- The gap contribution of one scheduled window in a pure-store run. -/
def gapOfWin (store : List Row) (v : String) (limit : Nat) (thr : Int)
    (win : Int × Int) : Int :=
  batchGap ((fetchWindow store v limit win.1 win.2).map Row.time) thr

/-- The gap sum over an arbitrary window list in a pure-store run. -/
def winGapSum (store : List Row) (v : String) (limit : Nat) (thr : Int)
    (ws : List (Int × Int)) : Int :=
  (ws.map (gapOfWin store v limit thr)).sum

/-- The non-empty batches collected over an arbitrary window list. -/
def winBatches (store : List Row) (v : String) (limit : Nat)
    (ws : List (Int × Int)) : List (List Row) :=
  (ws.map (fun win => fetchWindow store v limit win.1 win.2)).filter
    (fun rows => !rows.isEmpty)

/-- The accumulated gap duration of a whole pure-store run of get_frequency. -/
def gapTotal (store : List Row) (v : String) (limit : Nat) (s e w thr : Int) : Int :=
  winGapSum store v limit thr (windows s e w)

/-- The non-empty batches of a whole pure-store run of get_frequency. -/
def runBatches (store : List Row) (v : String) (limit : Nat) (s e w : Int) :
    List (List Row) :=
  winBatches store v limit (windows s e w)

/-- The per-field count of the windowed engine over an arbitrary window list:
non-null values counted over the concatenation of the per-window batches. -/
def windowedFieldCount (store : List Row) (v : String) (limit : Nat) (f : String)
    (ws : List (Int × Int)) : Nat :=
  colCount ((ws.map (fun win => fetchWindow store v limit win.1 win.2)).flatten) f

/-- The result rows of the store-side aggregate COUNT query consumed by
get_count_for_field of 1.0.7.py: an empty result when no non-null value for
the field lies in range, otherwise a single point keyed by count. -/
def aggPoints (store : List Row) (v f : String) (a b : Int) :
    List (List (String × Nat)) :=
  if aggregateCount store v f a b = 0 then []
  else [[("count", aggregateCount store v f a b)]]

/-- get_count_for_field of 1.0.7.py lines 72-97, applied to the outcome of
the aggregate query: a query failure is caught, logged and turned into the
count 0 (no retry, the run continues); an empty result yields 0; otherwise
the value of the first key of the first point starting with count is
returned, and 0 when no such key exists. -/
def getCountForField (result : Except String (List (List (String × Nat)))) : Nat :=
  match result with
  | Except.error _ => 0
  | Except.ok [] => 0
  | Except.ok (p :: _) =>
    match p.find? (fun kv => ("count".data).isPrefixOf kv.1.data) with
    | some kv => kv.2
    | none => 0

/-- A window list partitions the half-open range [a, e): each window starts
where the previous one ended, windows are non-degenerate intervals, and the
last window ends at e (an empty list covers the empty range a = e). -/
def chainCover : Int → Int → List (Int × Int) → Bool
  | a, e, [] => a == e
  | a, e, p :: rest => p.1 == a && decide (a ≤ p.2) && chainCover p.2 e rest

/-- The two samples of the cross-boundary scenario for Claim C4: one sample
at t = 10 in the window [0, 1800) and one at t = 3500 in [1800, 3600). -/
def crossRow1 : Row := ⟨"v", 10, [("f", some 1)]⟩

def crossRow2 : Row := ⟨"v", 3500, [("f", some 1)]⟩

/-- A client that answers the window starting at 0 and fails on every other
window, exercising a query failure after a successful window. -/
def flakyClient : Int → Int → Except String (List Row) :=
  fun a _ => if a = 0 then Except.ok [crossRow1] else Except.error "boom"

/-- The store of the negative-effective-duration scenario: two samples 1000
seconds apart inside the single window of the tiny range [0, 10), giving an
accumulated gap duration of 996 with threshold 4. -/
def negStore : List Row := [⟨"v", 0, [("f", some 1)]⟩, ⟨"v", 1000, [("f", some 1)]⟩]

/-- The store of the absent-field scenario for Claim C7: a single row whose
only returned column is g, while the channel map asks for field f. -/
def c7Store : List Row := [⟨"v", 1, [("g", some 5)]⟩]

/-- A three-sample store (one null value for f) used to instantiate the
windowing-invariance theorem. -/
def witStore : List Row :=
  [⟨"v", 1, [("f", some 3)]⟩, ⟨"v", 6, [("f", none)]⟩, ⟨"v", 7, [("f", some 2)]⟩]

/-! The file-based channel map loader of 1.0.7.py (load_measurements_fields)
and the row production of run_queries.  Lines are modelled as lists of
characters; strip, the tab split and the indentation test follow the Python
string operations used by the source. -/

/-- Whitespace as tested by the Python str.strip and str.isspace calls, for
the characters that occur in line-oriented input. -/
def isSpaceChar (c : Char) : Bool :=
  c == ' ' || c == '\t' || c == '\n' || c == '\r'

/-- line.strip() of 1.0.7.py line 30: drop whitespace from both ends. -/
def stripChars (l : List Char) : List Char :=
  ((l.dropWhile isSpaceChar).reverse.dropWhile isSpaceChar).reverse

/-- stripped_line.split of 1.0.7.py line 40 on the tab character: splitting
never yields an empty list (the empty input yields one empty part). -/
def splitTab : List Char → List (List Char)
  | [] => [[]]
  | c :: rest =>
    if c == '\t' then [] :: splitTab rest
    else
      match splitTab rest with
      | [] => [[c]]
      | p :: ps => (c :: p) :: ps

/-- Python dict assignment d[k] = v on an association list: an existing key
keeps its position and gets the new value, a new key is appended at the end. -/
def setKey (m : List (List Char × List (List Char))) (k : List Char)
    (v : List (List Char)) : List (List Char × List (List Char)) :=
  match m with
  | [] => [(k, v)]
  | (k0, v0) :: rest =>
    if k0 == k then (k0, v) :: rest else (k0, v0) :: setKey rest k v

/-- d[k].append(f) of 1.0.7.py line 38; the loader only calls it for the
current measurement, whose key is always present (a missing key is kept
unchanged, a state the loader never reaches). -/
def appendField (m : List (List Char × List (List Char))) (k : List Char)
    (f : List Char) : List (List Char × List (List Char)) :=
  match m with
  | [] => []
  | (k0, v0) :: rest =>
    if k0 == k then (k0, v0 ++ [f]) :: rest else (k0, v0) :: appendField rest k f

/-- The header branch of 1.0.7.py lines 40-46: split the stripped line on
tab; with two or more parts the new measurement starts with one field, with
a single part it starts with an empty field list; either way it becomes the
current measurement. -/
def headerStep (m : List (List Char × List (List Char))) (s : List Char) :
    List (List Char × List (List Char)) × Option (List Char) :=
  match splitTab s with
  | [] => (m, none)
  | p :: [] => (setKey m p [], some p)
  | p :: q :: _ => (setKey m p [q], some p)

/-- line[0].isspace() of 1.0.7.py line 36 (with the false short-circuit for
an empty line, which the loop never tests because blank lines are handled
first). -/
def lineIndented (line : List Char) : Bool :=
  match line with
  | c :: _ => isSpaceChar c
  | [] => false

/-- One line of the loader loop of 1.0.7.py lines 29-46: a blank line resets
the current measurement; an indented line while a current measurement is set
appends a field to it; any other line is a header line. -/
def loadStep (st : List (List Char × List (List Char)) × Option (List Char))
    (line : List Char) : List (List Char × List (List Char)) × Option (List Char) :=
  let s := stripChars line
  if s.isEmpty then (st.1, none)
  else
    match st.2 with
    | some m =>
      if lineIndented line then (appendField st.1 m s, some m) else headerStep st.1 s
    | none => headerStep st.1 s

/-- load_measurements_fields of 1.0.7.py: fold the loader loop over the lines
of the file, starting from an empty dict and no current measurement. -/
def loadMeasurementsFields (lines : List (List Char)) :
    List (List Char × List (List Char)) :=
  (lines.foldl loadStep ([], none)).1

/-- The result-row loop of run_queries in 1.0.7.py lines 148-159: each
measurement with a non-empty field list contributes one row per field, keyed
measurement.count_field; a measurement with no fields is skipped with a
diagnostic and contributes no row. -/
def runQueriesRows (mf : List (List Char × List (List Char)))
    (countOf : List Char → List Char → Nat) : List (List Char × Nat) :=
  match mf with
  | [] => []
  | (m, fs) :: rest =>
    fs.map (fun f =>
      (m ++ ('.' :: 'c' :: 'o' :: 'u' :: 'n' :: 't' :: '_' :: []) ++ f, countOf m f)) ++
      runQueriesRows rest countOf

/-! Basic facts about the window schedule. -/

theorem windows_cons (s e w : Int) (hw : 0 < w) (hse : s < e) :
    windows s e w = (s, s + w) :: windows (s + w) e w := by
  rw [windows]
  simp [hw, hse]

theorem windows_stop (s e w : Int) (h : ¬(0 < w ∧ s < e)) : windows s e w = [] := by
  rw [windows]
  simp [h]

theorem windows_single (s e w : Int) (hw : 0 < w) (hse : s < e) (hle : e ≤ s + w) :
    windows s e w = [(s, s + w)] := by
  rw [windows_cons s e w hw hse, windows_stop]
  omega

theorem windows_snd (s e w : Int) : ∀ p ∈ windows s e w, p.2 = p.1 + w := by
  by_cases h : 0 < w ∧ s < e
  · rw [windows_cons s e w h.1 h.2]
    intro p hp
    rcases List.mem_cons.mp hp with rfl | hp
    · rfl
    · exact windows_snd (s + w) e w p hp
  · rw [windows_stop s e w h]
    intro p hp
    exact absurd hp (List.not_mem_nil p)
termination_by (e - s).toNat
decreasing_by omega

theorem windows_fst_bounds (s e w : Int) :
    ∀ p ∈ windows s e w, s ≤ p.1 ∧ p.1 < e := by
  by_cases h : 0 < w ∧ s < e
  · rw [windows_cons s e w h.1 h.2]
    intro p hp
    rcases List.mem_cons.mp hp with rfl | hp
    · exact ⟨le_refl s, h.2⟩
    · have := windows_fst_bounds (s + w) e w p hp
      omega
  · rw [windows_stop s e w h]
    intro p hp
    exact absurd hp (List.not_mem_nil p)
termination_by (e - s).toNat
decreasing_by omega

theorem windows_head (s e w : Int) (hw : 0 < w) (hse : s < e) :
    (windows s e w).head? = some (s, s + w) := by
  rw [windows_cons s e w hw hse]
  rfl

theorem windows_chain (s e w : Int) :
    List.Chain' (fun p q : Int × Int => p.2 = q.1) (windows s e w) := by
  by_cases h : 0 < w ∧ s < e
  · rw [windows_cons s e w h.1 h.2]
    rw [List.chain'_cons']
    refine ⟨?_, windows_chain (s + w) e w⟩
    intro q hq
    by_cases h2 : 0 < w ∧ s + w < e
    · rw [windows_head (s + w) e w h2.1 h2.2] at hq
      simp at hq
      rw [← hq]
    · rw [windows_stop (s + w) e w h2] at hq
      simp at hq
  · rw [windows_stop s e w h]
    exact List.chain'_nil
termination_by (e - s).toNat
decreasing_by omega

theorem windows_last (s e w : Int) (hw : 0 < w) (hse : s < e) :
    ∃ p : Int × Int, (windows s e w).getLast? = some p ∧ e ≤ p.2 ∧ p.2 < e + w ∧
      p.2 = s + w * (windows s e w).length := by
  by_cases h2 : s + w < e
  · obtain ⟨p, hp, hep, hpw, hlen⟩ := windows_last (s + w) e w hw h2
    refine ⟨p, ?_, hep, hpw, ?_⟩
    · rw [windows_cons s e w hw hse]
      have hne : windows (s + w) e w ≠ [] := by
        rw [windows_cons (s + w) e w hw h2]
        exact List.cons_ne_nil _ _
      rcases List.exists_cons_of_ne_nil hne with ⟨q, l, hql⟩
      rw [hql]
      rw [hql] at hp
      exact (List.getLast?_cons_cons).trans hp
    · rw [windows_cons s e w hw hse]
      simp only [List.length_cons]
      rw [hlen]
      push_cast
      ring
  · refine ⟨(s, s + w), ?_, by omega, by omega, ?_⟩
    · rw [windows_single s e w hw hse (by omega)]
      rfl
    · rw [windows_single s e w hw hse (by omega)]
      simp
termination_by (e - s).toNat
decreasing_by omega

theorem windows_cover (s e w : Int) (hw : 0 < w) :
    ∀ t : Int, s ≤ t → t < e →
      (windows s e w).countP (fun p => decide (p.1 ≤ t) && decide (t < p.2)) = 1 := by
  intro t hst hte
  have hse : s < e := lt_of_le_of_lt hst hte
  rw [windows_cons s e w hw hse]
  rw [List.countP_cons]
  by_cases ht : t < s + w
  · have hhead : (decide (s ≤ t) && decide (t < s + w)) = true := by
      simp [hst, ht]
    rw [hhead]
    simp only [if_pos rfl]
    have hzero :
        (windows (s + w) e w).countP (fun p => decide (p.1 ≤ t) && decide (t < p.2)) = 0 := by
      rw [List.countP_eq_zero]
      intro p hp
      have hb := windows_fst_bounds (s + w) e w p hp
      simp only [Bool.and_eq_true, decide_eq_true_eq]
      rintro ⟨hpt, -⟩
      omega
    rw [hzero]
    simp
  · have hhead : (decide (s ≤ t) && decide (t < s + w)) = false := by
      simp [ht]
    rw [hhead]
    simp only [Bool.false_eq_true, if_false, Nat.add_zero]
    exact windows_cover (s + w) e w hw t (by omega) hte
termination_by (e - s).toNat
decreasing_by omega

theorem sum_durations_of_const (w : Int) :
    ∀ l : List (Int × Int), (∀ p ∈ l, p.2 = p.1 + w) →
      (l.map (fun p : Int × Int => p.2 - p.1)).sum = w * l.length := by
  intro l
  induction l with
  | nil => simp
  | cons p rest ih =>
    intro h
    have hp := h p (List.mem_cons_self p rest)
    have hrest := ih (fun q hq => h q (List.mem_cons_of_mem p hq))
    simp only [List.map_cons, List.sum_cons, List.length_cons, hrest, hp]
    push_cast
    ring

theorem windows_durations (s e w : Int) :
    ((windows s e w).map (fun p : Int × Int => p.2 - p.1)).sum =
      w * (windows s e w).length :=
  sum_durations_of_const w (windows s e w) (windows_snd s e w)

/-! Closed form of the window loop over a pure store, and gap detector facts. -/

theorem batchGap_nil (thr : Int) : batchGap [] thr = 0 := by
  simp [batchGap, diffs]

theorem sum_map_sub_const : ∀ (l : List Int) (c : Int),
    (l.map (fun d => d - c)).sum = l.sum - c * l.length := by
  intro l
  induction l with
  | nil => intro c; simp
  | cons d rest ih =>
    intro c
    simp only [List.map_cons, List.sum_cons, List.length_cons, ih]
    push_cast
    ring

theorem batchGap_eq (ts : List Int) (thr : Int) :
    batchGap ts thr =
      (((diffs ts).filter (fun d => decide (thr < d))).map (fun d => d - thr)).sum := by
  rw [batchGap, sum_map_sub_const]

theorem batchGap_nonneg (ts : List Int) (thr : Int) : 0 ≤ batchGap ts thr := by
  rw [batchGap_eq]
  apply List.sum_nonneg
  intro x hx
  rcases List.mem_map.mp hx with ⟨d, hd, rfl⟩
  have hfil := (List.mem_filter.mp hd).2
  simp only [decide_eq_true_eq] at hfil
  omega

theorem runWindowsFrom_store (store : List Row) (v : String) (limit : Nat)
    (thr : Int) :
    ∀ (ws : List (Int × Int)) (acc : Int × List (List Row)),
      runWindowsFrom (storeClient store v limit) thr acc ws =
        Except.ok (acc.1 + winGapSum store v limit thr ws,
          acc.2 ++ winBatches store v limit ws) := by
  intro ws
  induction ws with
  | nil =>
    intro acc
    simp only [runWindowsFrom, List.foldlM_nil, winGapSum, winBatches,
      List.map_nil, List.sum_nil, List.filter_nil, List.append_nil, add_zero]
    rfl
  | cons p rest ih =>
    intro acc
    have hcons : runWindowsFrom (storeClient store v limit) thr acc (p :: rest) =
        runWindowsFrom (storeClient store v limit) thr
          (gapStep thr acc (fetchWindow store v limit p.1 p.2)) rest := rfl
    rw [hcons, ih]
    by_cases hb : (fetchWindow store v limit p.1 p.2).isEmpty
    · have h0 : fetchWindow store v limit p.1 p.2 = [] := List.isEmpty_iff.mp hb
      simp [gapStep, hb, winGapSum, winBatches, gapOfWin, h0, batchGap_nil,
        List.filter_cons]
    · have hstep : gapStep thr acc (fetchWindow store v limit p.1 p.2) =
          (acc.1 + batchGap ((fetchWindow store v limit p.1 p.2).map Row.time) thr,
            acc.2 ++ [fetchWindow store v limit p.1 p.2]) := by
        simp [gapStep, hb]
      have hsum : winGapSum store v limit thr (p :: rest) =
          gapOfWin store v limit thr p + winGapSum store v limit thr rest := by
        simp [winGapSum]
      have hbat : winBatches store v limit (p :: rest) =
          fetchWindow store v limit p.1 p.2 :: winBatches store v limit rest := by
        simp [winBatches, List.filter_cons, hb]
      rw [hstep, hsum, hbat]
      simp [gapOfWin, add_assoc]

theorem runWindows_store_eq (store : List Row) (v : String) (limit : Nat)
    (thr : Int) (ws : List (Int × Int)) :
    runWindows (storeClient store v limit) thr ws =
      Except.ok (winGapSum store v limit thr ws, winBatches store v limit ws) := by
  rw [runWindows, runWindowsFrom_store store v limit thr ws (0, [])]
  simp

theorem getFrequencyStore_eq (store : List Row) (v : String) (limit : Nat)
    (canfs : List (String × List String)) (s e w thr : Int) :
    getFrequencyStore store v limit canfs s e w thr =
      if (runBatches store v limit s e w).isEmpty then
        Except.ok (zeroTable canfs, effectiveTime s e (gapTotal store v limit s e w thr))
      else
        Except.map (fun tbl => (tbl, effectiveTime s e (gapTotal store v limit s e w thr)))
          (countTable (runBatches store v limit s e w).flatten canfs) := by
  unfold getFrequencyStore getFrequency runBatches gapTotal
  rw [runWindows_store_eq]
  show (if (winBatches store v limit (windows s e w)).isEmpty then _ else _ :
      Except String _) = _
  by_cases hd : (winBatches store v limit (windows s e w)).isEmpty
  · rw [if_pos hd, if_pos (by exact hd)]
    rfl
  · rw [if_neg hd, if_neg (by exact hd)]
    show (countTable (winBatches store v limit (windows s e w)).flatten canfs).bind _ = _
    cases hct : countTable (winBatches store v limit (windows s e w)).flatten canfs with
    | error msg => rfl
    | ok t => rfl

/-! Concrete evaluations of the schedule, used by concrete run theorems. -/

theorem windows_0_10_1800 : windows 0 10 1800 = [(0, 1800)] := by
  rw [windows_single 0 10 1800 (by norm_num) (by norm_num) (by norm_num)]
  norm_num

theorem windows_0_3600_1800 : windows 0 3600 1800 = [(0, 1800), (1800, 3600)] := by
  have h1 : windows 1800 3600 1800 = [(1800, 3600)] := by
    rw [windows_single 1800 3600 1800 (by norm_num) (by norm_num) (by norm_num)]
    norm_num
  rw [windows_cons 0 3600 1800 (by norm_num) (by norm_num)]
  norm_num [h1]

theorem windows_0_5_2 : windows 0 5 2 = [(0, 2), (2, 4), (4, 6)] := by
  have h4 : windows 4 5 2 = [(4, 6)] := by
    rw [windows_single 4 5 2 (by norm_num) (by norm_num) (by norm_num)]
    norm_num
  have h2 : windows 2 5 2 = [(2, 4), (4, 6)] := by
    rw [windows_cons 2 5 2 (by norm_num) (by norm_num)]
    norm_num [h4]
  rw [windows_cons 0 5 2 (by norm_num) (by norm_num)]
  norm_num [h2]

/-- Claim C1, counterexample: for the range [0, 5) with window size 2 the
while-loop of get_frequency emits [(0,2), (2,4), (4,6)]: the final window end
is 6, not the range end 5, and the durations sum to 6, not 5 - 0.  The loop
never truncates the last window to the range end. -/
theorem scheduler_exact_cover_counterexample :
    (windows 0 5 2).getLast? = some (4, 6) ∧ ¬((4, 6) : Int × Int).2 = 5 ∧
      ((windows 0 5 2).map (fun p : Int × Int => p.2 - p.1)).sum = 6 ∧
      ¬(6 : Int) = 5 - 0 := by
  rw [windows_0_5_2]
  decide

/-- Claim C1 (amended): for every range with start < end and positive window
size, the while-loop of get_frequency produces a non-empty, contiguous,
non-overlapping schedule of windows of exactly the nominal size, starting at
the range start and covering every instant of the range exactly once; the
final window end is the first loop boundary at or beyond the range end
(within one window size above it, equal to the range end only when the window
size divides the range length), and the durations sum to that final end minus
the range start, which can exceed range end - range start. -/
theorem scheduler_windows_amended (s e w : Int) (hw : 0 < w) (hse : s < e) :
    ∃ la : Int × Int, (windows s e w).getLast? = some la ∧
      (windows s e w).head? = some (s, s + w) ∧
      List.Chain' (fun p q : Int × Int => p.2 = q.1) (windows s e w) ∧
      (∀ p ∈ windows s e w, p.2 = p.1 + w) ∧
      (∀ t : Int, s ≤ t → t < e →
        (windows s e w).countP (fun p => decide (p.1 ≤ t) && decide (t < p.2)) = 1) ∧
      e ≤ la.2 ∧ la.2 < e + w ∧
      ((windows s e w).map (fun p : Int × Int => p.2 - p.1)).sum = la.2 - s := by
  obtain ⟨la, hla, he, hw2, hlen⟩ := windows_last s e w hw hse
  refine ⟨la, hla, windows_head s e w hw hse, windows_chain s e w,
    windows_snd s e w, windows_cover s e w hw, he, hw2, ?_⟩
  rw [windows_durations s e w, hlen]
  ring

/-- Witness for the amended Claim C1 at range [0, 5) and window size 2. -/
theorem scheduler_windows_amended_witness :
    (0 : Int) < 2 ∧ (0 : Int) < 5 ∧
      (∃ la : Int × Int, (windows 0 5 2).getLast? = some la ∧
        (windows 0 5 2).head? = some (0, 0 + 2) ∧
        List.Chain' (fun p q : Int × Int => p.2 = q.1) (windows 0 5 2) ∧
        (∀ p ∈ windows 0 5 2, p.2 = p.1 + 2) ∧
        (∀ t : Int, 0 ≤ t → t < 5 →
          (windows 0 5 2).countP (fun p => decide (p.1 ≤ t) && decide (t < p.2)) = 1) ∧
        (5 : Int) ≤ la.2 ∧ la.2 < 5 + 2 ∧
        ((windows 0 5 2).map (fun p : Int × Int => p.2 - p.1)).sum = la.2 - 0) :=
  ⟨by norm_num, by norm_num, scheduler_windows_amended 0 5 2 (by norm_num) (by norm_num)⟩

/-- Claim C3: the gap detector classifies exactly the successive deltas
strictly greater than the threshold as gaps, each gap contributes its excess
delta - threshold (not the full delta), and the per-batch total added to the
accumulated gap duration is the sum of these excesses; in particular a batch
whose only gap is a single delta G greater than the threshold contributes
exactly G - threshold. -/
theorem gap_detector_excess (ts : List Int) (thr : Int) :
    batchGap ts thr =
      (((diffs ts).filter (fun d => decide (thr < d))).map (fun d => d - thr)).sum ∧
    (∀ G : Int, (diffs ts).filter (fun d => decide (thr < d)) = [G] →
      batchGap ts thr = G - thr) := by
  refine ⟨batchGap_eq ts thr, ?_⟩
  intro G hG
  rw [batchGap_eq, hG]
  simp

/-- Witness for Claim C3 at the batch [0, 10, 11] with threshold 4: the
deltas are [10, 1], the only gap is 10, and the contribution is 10 - 4. -/
theorem gap_detector_excess_witness :
    batchGap [0, 10, 11] 4 =
      (((diffs [0, 10, 11]).filter (fun d => decide ((4 : Int) < d))).map
        (fun d => d - 4)).sum ∧
    ((diffs [0, 10, 11]).filter (fun d => decide ((4 : Int) < d)) = [10] ∧
      batchGap [0, 10, 11] 4 = 10 - 4) :=
  ⟨(gap_detector_excess [0, 10, 11] 4).1, by decide,
    (gap_detector_excess [0, 10, 11] 4).2 10 (by decide)⟩

/-- Claim C9: the accumulated gap duration starts at zero, every batch adds a
non-negative amount, the running total over any prefix of the scheduled
windows never decreases as further windows are processed, and the total of a
whole run is non-negative. -/
theorem gap_accumulation_monotone :
    (∀ (ts : List Int) (thr : Int), 0 ≤ batchGap ts thr) ∧
    (∀ (store : List Row) (v : String) (limit : Nat) (thr : Int)
        (ws1 ws2 : List (Int × Int)),
      winGapSum store v limit thr ws1 ≤ winGapSum store v limit thr (ws1 ++ ws2)) ∧
    (∀ (store : List Row) (v : String) (limit : Nat) (s e w thr : Int),
      0 ≤ gapTotal store v limit s e w thr) := by
  have hnn : ∀ (store : List Row) (v : String) (limit : Nat) (thr : Int)
      (ws : List (Int × Int)), 0 ≤ winGapSum store v limit thr ws := by
    intro store v limit thr ws
    apply List.sum_nonneg
    intro x hx
    rcases List.mem_map.mp hx with ⟨win, hwin, rfl⟩
    exact batchGap_nonneg _ _
  refine ⟨fun ts thr => batchGap_nonneg ts thr, ?_,
    fun store v limit s e w thr => hnn store v limit thr (windows s e w)⟩
  intro store v limit thr ws1 ws2
  have h2 := hnn store v limit thr ws2
  unfold winGapSum at *
  rw [List.map_append, List.sum_append]
  omega

/-- Claim C4: the gap detector resets its reference point at every window
boundary.  The accumulated gap duration of any pure-store run equals the sum
over the scheduled windows of the gap contribution computed from deltas
inside each window batch alone, so intervals between the last sample of one
batch and the first sample of the next contribute nothing.  Concretely, two
samples 3490 seconds apart in consecutive windows of a [0, 3600) range with
threshold 4 yield an accumulated gap duration of 0. -/
theorem gap_cross_boundary_reset :
    (∀ (store : List Row) (v : String) (limit : Nat) (s e w thr : Int),
      runWindows (storeClient store v limit) thr (windows s e w) =
        Except.ok (gapTotal store v limit s e w thr, runBatches store v limit s e w)) ∧
    ((3500 : Int) - 10 > 4 ∧
      runWindows (storeClient [crossRow1, crossRow2] "v" 100000) 4
          (windows 0 3600 1800) =
        Except.ok (0, [[crossRow1], [crossRow2]])) := by
  refine ⟨?_, by norm_num, ?_⟩
  · intro store v limit s e w thr
    exact runWindows_store_eq store v limit thr (windows s e w)
  · rw [windows_0_3600_1800]
    rfl

/-- Claim C5: whenever a pure-store run of get_frequency returns a result,
its effective duration is exactly (range end - range start) minus the
accumulated gap duration, with no clamping to zero: if the accumulated gap
duration exceeds the range length, the result is negative. -/
theorem effective_duration_no_clamp (store : List Row) (v : String) (limit : Nat)
    (canfs : List (String × List String)) (s e w thr : Int)
    (tbl : List (String × List (String × Nat))) (eff : Int)
    (h : getFrequencyStore store v limit canfs s e w thr = Except.ok (tbl, eff)) :
    eff = (e - s) - gapTotal store v limit s e w thr ∧
      (e - s < gapTotal store v limit s e w thr → eff < 0) := by
  rw [getFrequencyStore_eq] at h
  have heff : eff = effectiveTime s e (gapTotal store v limit s e w thr) := by
    by_cases hd : (runBatches store v limit s e w).isEmpty
    · rw [if_pos hd] at h
      have := (Except.ok.inj h)
      exact (Prod.mk.inj this).2.symm
    · rw [if_neg hd] at h
      cases hct : countTable (runBatches store v limit s e w).flatten canfs with
      | error msg => rw [hct] at h; exact absurd h (by simp [Except.map])
      | ok t =>
        rw [hct] at h
        have := (Except.ok.inj h)
        exact (Prod.mk.inj this).2.symm
  rw [heff, effectiveTime]
  constructor
  · rfl
  · intro hgt
    omega

theorem negStore_batches :
    runBatches negStore "v" 100000 0 10 1800 = [negStore] := by
  unfold runBatches winBatches
  rw [windows_0_10_1800]
  rfl

theorem negStore_gap : gapTotal negStore "v" 100000 0 10 1800 4 = 996 := by
  unfold gapTotal winGapSum
  rw [windows_0_10_1800]
  rfl

/-- Witness for Claim C5: on negStore over the range [0, 10) the run returns
effective duration -986 = (10 - 0) - 996, a negative result. -/
theorem effective_duration_no_clamp_witness :
    getFrequencyStore negStore "v" 100000 [("c", ["f"])] 0 10 1800 4 =
      Except.ok ([("c", [("f", 2)])], -986) ∧
    ((-986 : Int) = (10 - 0) - gapTotal negStore "v" 100000 0 10 1800 4 ∧
      ((10 : Int) - 0 < gapTotal negStore "v" 100000 0 10 1800 4 → (-986 : Int) < 0)) := by
  have hEval : getFrequencyStore negStore "v" 100000 [("c", ["f"])] 0 10 1800 4 =
      Except.ok ([("c", [("f", 2)])], -986) := by
    rw [getFrequencyStore_eq, negStore_batches, negStore_gap]
    rfl
  exact ⟨hEval,
    effective_duration_no_clamp negStore "v" 100000 [("c", ["f"])] 0 10 1800 4
      [("c", [("f", 2)])] (-986) hEval⟩

/-- Claim C6: when the store yields zero rows for every scheduled window of
the range, get_frequency returns the zero-initialised frequency table and an
effective duration equal to the full range length (the no-data-full-coverage
behaviour: the accumulated gap duration stays zero). -/
theorem no_data_full_coverage (store : List Row) (v : String) (limit : Nat)
    (canfs : List (String × List String)) (s e w thr : Int)
    (h : ∀ win ∈ windows s e w, fetchWindow store v limit win.1 win.2 = []) :
    getFrequencyStore store v limit canfs s e w thr =
      Except.ok (zeroTable canfs, e - s) := by
  have hb : runBatches store v limit s e w = [] := by
    unfold runBatches winBatches
    rw [List.filter_eq_nil_iff]
    intro rows hrows
    rcases List.mem_map.mp hrows with ⟨win, hwin, rfl⟩
    rw [h win hwin]
    simp
  have hg : gapTotal store v limit s e w thr = 0 := by
    unfold gapTotal winGapSum
    apply List.sum_eq_zero
    intro x hx
    rcases List.mem_map.mp hx with ⟨win, hwin, rfl⟩
    unfold gapOfWin
    rw [h win hwin]
    exact batchGap_nil thr
  rw [getFrequencyStore_eq, hb, hg]
  simp [effectiveTime]

/-- Witness for Claim C6 on an empty store over the range [0, 10). -/
theorem no_data_full_coverage_witness :
    (∀ win ∈ windows 0 10 1800, fetchWindow ([] : List Row) "v" 100000 win.1 win.2 = []) ∧
      getFrequencyStore [] "v" 100000 [("c", ["f"])] 0 10 1800 4 =
        Except.ok (zeroTable [("c", ["f"])], 10 - 0) := by
  have h : ∀ win ∈ windows 0 10 1800,
      fetchWindow ([] : List Row) "v" 100000 win.1 win.2 = [] := by
    intro win _
    rfl
  exact ⟨h, no_data_full_coverage [] "v" 100000 [("c", ["f"])] 0 10 1800 4 h⟩

theorem c7Store_batches :
    runBatches c7Store "v" 100000 0 10 1800 = [c7Store] := by
  unfold runBatches winBatches
  rw [windows_0_10_1800]
  rfl

theorem c7Store_gap : gapTotal c7Store "v" 100000 0 10 1800 4 = 0 := by
  unfold gapTotal winGapSum
  rw [windows_0_10_1800]
  rfl

/-- Claim C7 (code bug): with data present but the mapped field f absent from
every returned row, the counting loop of get_frequency accesses the missing
column and raises KeyError, aborting the run instead of reporting a count of
0 as the zero-initialised table intends. -/
theorem absent_field_keyerror :
    getFrequencyStore c7Store "v" 100000 [("c", ["f"])] 0 10 1800 4 =
      Except.error "KeyError: f" := by
  rw [getFrequencyStore_eq, c7Store_batches, c7Store_gap]
  rfl

theorem runWindowsFrom_error_head (client : Int → Int → Except String (List Row))
    (thr : Int) (acc : Int × List (List Row)) (a b : Int)
    (rest : List (Int × Int)) (msg : String)
    (hcl : client a b = Except.error msg) :
    runWindowsFrom client thr acc ((a, b) :: rest) = Except.error msg := by
  have hstep : runWindowsFrom client thr acc ((a, b) :: rest) =
      (client a b >>= fun rows => pure (gapStep thr acc rows)) >>= fun acc2 =>
        runWindowsFrom client thr acc2 rest := rfl
  rw [hstep, hcl]
  rfl

/-- Claim C8, counterexample: in the windowed engine a failing store query is
not caught: with a client whose every window query fails, get_frequency
aborts with the error instead of skipping the window and returning a
result. -/
theorem failed_window_query_aborts :
    getFrequency (fun _ _ => Except.error "connection refused") [("c", ["f"])]
        0 10 1800 4 = Except.error "connection refused" := by
  unfold getFrequency runWindows
  rw [windows_0_10_1800,
    runWindowsFrom_error_head _ 4 (0, []) 0 1800 [] "connection refused" rfl]
  rfl

theorem runWindowsFrom_error_reach (client : Int → Int → Except String (List Row))
    (thr : Int) :
    ∀ (pre : List (Int × Int)) (acc : Int × List (List Row)) (a b : Int)
      (rest : List (Int × Int)) (msg : String),
      (∀ p ∈ pre, ∃ rows, client p.1 p.2 = Except.ok rows) →
      client a b = Except.error msg →
      runWindowsFrom client thr acc (pre ++ (a, b) :: rest) = Except.error msg := by
  intro pre
  induction pre with
  | nil =>
    intro acc a b rest msg _ hcl
    exact runWindowsFrom_error_head client thr acc a b rest msg hcl
  | cons p pre' ih =>
    intro acc a b rest msg hok hcl
    obtain ⟨rows, hrows⟩ := hok p (List.mem_cons_self p pre')
    have hstep : runWindowsFrom client thr acc ((p :: pre') ++ (a, b) :: rest) =
        (client p.1 p.2 >>= fun rows => pure (gapStep thr acc rows)) >>= fun acc2 =>
          runWindowsFrom client thr acc2 (pre' ++ (a, b) :: rest) := rfl
    rw [hstep, hrows]
    exact ih (gapStep thr acc rows) a b rest msg
      (fun q hq => hok q (List.mem_cons_of_mem p hq)) hcl

/-- Claim C8 (amended): the two paths differ.  In the aggregate path,
get_count_for_field catches a failed query and returns the count 0 with no
retry, so the caller keeps going; in the windowed engine, a failed window
query is not caught: whichever scheduled window the loop reaches with a
failing query - first, or any later one after the earlier windows answered -
its error propagates and aborts the whole get_frequency run. -/
theorem query_failure_handling :
    (∀ msg : String, getCountForField (Except.error msg) = 0) ∧
    (∀ (client : Int → Int → Except String (List Row))
        (canfs : List (String × List String)) (s e w thr a b : Int)
        (pre rest : List (Int × Int)) (msg : String),
      windows s e w = pre ++ (a, b) :: rest →
      (∀ p ∈ pre, ∃ rows, client p.1 p.2 = Except.ok rows) →
      client a b = Except.error msg →
      getFrequency client canfs s e w thr = Except.error msg) := by
  refine ⟨fun msg => rfl, ?_⟩
  intro client canfs s e w thr a b pre rest msg hwin hok hcl
  unfold getFrequency runWindows
  rw [hwin, runWindowsFrom_error_reach client thr pre (0, []) a b rest msg hok hcl]
  rfl

/-- Witness for the amended Claim C8 at the range [0, 3600) with windows
(0, 1800) and (1800, 3600): the client answers the first window and fails on
the second, and the run aborts with the second window's error. -/
theorem query_failure_handling_witness :
    getCountForField (Except.error "boom") = 0 ∧
    windows 0 3600 1800 = [(0, 1800)] ++ (1800, 3600) :: [] ∧
    (∀ p ∈ [((0 : Int), (1800 : Int))], ∃ rows, flakyClient p.1 p.2 = Except.ok rows) ∧
    flakyClient 1800 3600 = Except.error "boom" ∧
    getFrequency flakyClient [("c", ["f"])] 0 3600 1800 4 = Except.error "boom" := by
  have h1 : windows 0 3600 1800 = [(0, 1800)] ++ (1800, 3600) :: [] := by
    rw [windows_0_3600_1800]
    rfl
  have h2 : ∀ p ∈ [((0 : Int), (1800 : Int))],
      ∃ rows, flakyClient p.1 p.2 = Except.ok rows := by
    intro p hp
    rcases List.mem_singleton.mp hp with rfl
    exact ⟨[crossRow1], rfl⟩
  have h3 : flakyClient 1800 3600 = Except.error "boom" := rfl
  refine ⟨query_failure_handling.1 "boom", h1, h2, h3, ?_⟩
  exact query_failure_handling.2 flakyClient [("c", ["f"])] 0 3600 1800 4
    1800 3600 [(0, 1800)] [] "boom" h1 h2 h3

/-! Splitting the whole-range aggregate count along a partition of the range,
for the windowing-invariance claim. -/

theorem agg_out_of_range (store : List Row) (v f : String) (a b : Int)
    (h : b ≤ a) : aggregateCount store v f a b = 0 := by
  unfold aggregateCount
  rw [List.countP_filter, List.countP_eq_zero]
  intro r _
  simp only [rowMatch, Bool.and_eq_true, decide_eq_true_eq, beq_iff_eq]
  rintro ⟨-, ⟨⟨-, h1⟩, h2⟩⟩
  omega

theorem chainCover_le : ∀ (ws : List (Int × Int)) (a e : Int),
    chainCover a e ws = true → a ≤ e := by
  intro ws
  induction ws with
  | nil =>
    intro a e h
    simp only [chainCover, beq_iff_eq] at h
    omega
  | cons p rest ih =>
    intro a e h
    simp only [chainCover, Bool.and_eq_true, beq_iff_eq, decide_eq_true_eq] at h
    have := ih p.2 e h.2
    omega

theorem if_window_split (x y : Bool) (t a m b : Int) (h1 : a ≤ m) (h2 : m ≤ b) :
    (if x && (y && decide (a ≤ t) && decide (t < b)) then (1 : Nat) else 0) =
      (if x && (y && decide (a ≤ t) && decide (t < m)) then 1 else 0) +
        (if x && (y && decide (m ≤ t) && decide (t < b)) then 1 else 0) := by
  cases x
  · simp
  · cases y
    · simp
    · simp only [Bool.true_and, Bool.and_eq_true, decide_eq_true_eq]
      split_ifs <;> omega

theorem if_rowMatch_split (xp : Bool) (r : Row) (v : String) (a m b : Int)
    (h1 : a ≤ m) (h2 : m ≤ b) :
    (if xp && rowMatch v a b r then (1 : Nat) else 0) =
      (if xp && rowMatch v a m r then 1 else 0) +
        (if xp && rowMatch v m b r then 1 else 0) := by
  simp only [rowMatch]
  exact if_window_split xp (r.vehicle == v) r.time a m b h1 h2

theorem countP_window_split (v f : String) (a m b : Int) (h1 : a ≤ m)
    (h2 : m ≤ b) :
    ∀ store : List Row,
      store.countP (fun r => fieldPresent f r && rowMatch v a b r) =
        store.countP (fun r => fieldPresent f r && rowMatch v a m r) +
          store.countP (fun r => fieldPresent f r && rowMatch v m b r) := by
  intro store
  induction store with
  | nil => rfl
  | cons r rest ih =>
    simp only [List.countP_cons]
    rw [ih, if_rowMatch_split (fieldPresent f r) r v a m b h1 h2]
    omega

theorem aggregateCount_split (store : List Row) (v f : String) (a m b : Int)
    (h1 : a ≤ m) (h2 : m ≤ b) :
    aggregateCount store v f a b =
      aggregateCount store v f a m + aggregateCount store v f m b := by
  unfold aggregateCount
  rw [List.countP_filter, List.countP_filter, List.countP_filter]
  exact countP_window_split v f a m b h1 h2 store

theorem aggregateCount_chain (store : List Row) (v f : String) :
    ∀ (ws : List (Int × Int)) (a e : Int), chainCover a e ws = true →
      (ws.map (fun p : Int × Int => aggregateCount store v f p.1 p.2)).sum =
        aggregateCount store v f a e := by
  intro ws
  induction ws with
  | nil =>
    intro a e h
    simp only [chainCover, beq_iff_eq] at h
    subst h
    rw [agg_out_of_range store v f a a (le_refl a)]
    simp
  | cons p rest ih =>
    intro a e h
    simp only [chainCover, Bool.and_eq_true, beq_iff_eq, decide_eq_true_eq] at h
    obtain ⟨⟨hpa, hap2⟩, hrest⟩ := h
    have hp2e := chainCover_le rest p.2 e hrest
    rw [List.map_cons, List.sum_cons, ih p.2 e hrest, hpa]
    exact (aggregateCount_split store v f a p.2 e hap2 hp2e).symm

/-- Claim C2, counterexample: with a row cap of 1 and two in-range non-null
samples of field f in the single window of the trivial partition of [0, 10),
the windowed engine counts 1 (the LIMIT clause truncates the batch) while the
whole-range aggregate COUNT returns 2. -/
theorem windowed_count_cap_counterexample :
    chainCover 0 10 [(0, 10)] = true ∧
    windowedFieldCount [⟨"v", 1, [("f", some 0)]⟩, ⟨"v", 2, [("f", some 0)]⟩]
        "v" 1 "f" [(0, 10)] = 1 ∧
    aggregateCount [⟨"v", 1, [("f", some 0)]⟩, ⟨"v", 2, [("f", some 0)]⟩]
        "v" "f" 0 10 = 2 ∧
    ¬(1 : Nat) = 2 := by
  decide

/-- Claim C2 (amended): for every field, store and partition of the range
into non-overlapping windows covering it fully, provided no window's matching
row count exceeds the row cap, the count of non-null values over the
concatenation of the per-window batches equals the single whole-range
aggregate COUNT for that field.  (The proviso is forced: the LIMIT clause of
the per-window query silently truncates a window whose row count exceeds the
cap, making the windowed count fall short.) -/
theorem windowed_count_matches_aggregate (store : List Row) (v f : String)
    (limit : Nat) (ws : List (Int × Int)) (s e : Int)
    (hcover : chainCover s e ws = true)
    (hcap : ∀ p ∈ ws, (store.filter (rowMatch v p.1 p.2)).length ≤ limit) :
    windowedFieldCount store v limit f ws = aggregateCount store v f s e := by
  unfold windowedFieldCount colCount
  rw [List.countP_flatten, List.map_map]
  have hmap : ws.map (List.countP (fieldPresent f) ∘
      fun win : Int × Int => fetchWindow store v limit win.1 win.2) =
      ws.map (fun p : Int × Int => aggregateCount store v f p.1 p.2) := by
    apply List.map_congr_left
    intro p hp
    show List.countP (fieldPresent f) (fetchWindow store v limit p.1 p.2) = _
    unfold fetchWindow
    rw [List.take_of_length_le (hcap p hp)]
    rfl
  rw [hmap]
  exact aggregateCount_chain store v f ws s e hcover

/-- Witness for the amended Claim C2: three samples, one of them null, over
the partition [(0,5), (5,10)] of [0, 10) with cap 100. -/
theorem windowed_count_matches_aggregate_witness :
    chainCover 0 10 [(0, 5), (5, 10)] = true ∧
    (∀ p ∈ [((0 : Int), (5 : Int)), (5, 10)],
      (witStore.filter (rowMatch "v" p.1 p.2)).length ≤ 100) ∧
    windowedFieldCount witStore "v" 100 "f" [(0, 5), (5, 10)] =
      aggregateCount witStore "v" "f" 0 10 := by
  have h1 : chainCover 0 10 [(0, 5), (5, 10)] = true := by decide
  have h2 : ∀ p ∈ [((0 : Int), (5 : Int)), (5, 10)],
      (witStore.filter (rowMatch "v" p.1 p.2)).length ≤ 100 := by decide
  exact ⟨h1, h2,
    windowed_count_matches_aggregate witStore "v" "f" 100 [(0, 5), (5, 10)] 0 10 h1 h2⟩

/-! The file-based channel map loader. -/

theorem splitTab_no_tab : ∀ l : List Char, ('\t' ∈ l → False) → splitTab l = [l] := by
  intro l
  induction l with
  | nil => intro _; rfl
  | cons c rest ih =>
    intro h
    have hc : (c == '\t') = false := by
      rw [beq_eq_false_iff_ne]
      intro hEq
      exact h (hEq ▸ List.mem_cons_self c rest)
    have hrest : splitTab rest = [rest] :=
      ih (fun hm => h (List.mem_cons_of_mem c hm))
    simp only [splitTab, hc, Bool.false_eq_true, if_false, hrest]

/-- Claim C10: in the loader, a non-blank non-indented line with no tab
separator becomes a measurement entry with an empty field list (never an
error), a set key is looked up to its new value, a measurement with an empty
field list contributes no output row in run_queries, a blank line resets the
current measurement, and after such a reset any non-blank line - indented or
not - is handled by the header branch, starting a new block instead of
extending the previous one. -/
theorem loader_robustness :
    (∀ (st : List (List Char × List (List Char)) × Option (List Char))
        (line : List Char),
      ¬stripChars line = [] →
      lineIndented line = false →
      ¬('\t' ∈ stripChars line) →
      loadStep st line = (setKey st.1 (stripChars line) [], some (stripChars line))) ∧
    (∀ (mp : List (List Char × List (List Char))) (k : List Char)
        (v : List (List Char)), (setKey mp k v).lookup k = some v) ∧
    (∀ (pre post : List (List Char × List (List Char))) (m : List Char)
        (countOf : List Char → List Char → Nat),
      runQueriesRows (pre ++ (m, []) :: post) countOf =
        runQueriesRows (pre ++ post) countOf) ∧
    (∀ (st : List (List Char × List (List Char)) × Option (List Char))
        (line : List Char), stripChars line = [] → loadStep st line = (st.1, none)) ∧
    (∀ (mp : List (List Char × List (List Char))) (line : List Char),
      ¬stripChars line = [] →
      loadStep (mp, none) line = headerStep mp (stripChars line)) := by
  have hheader : ∀ (mp : List (List Char × List (List Char))) (s : List Char),
      ('\t' ∈ s → False) → ¬s = [] →
      headerStep mp s = (setKey mp s [], some s) := by
    intro mp s hs _
    rw [headerStep, splitTab_no_tab s hs]
  refine ⟨?_, ?_, ?_, ?_, ?_⟩
  · intro st line h1 h2 h3
    obtain ⟨mp, cur⟩ := st
    have hne : (stripChars line).isEmpty = false := by
      simpa using h1
    have hh := hheader mp (stripChars line) h3 h1
    cases cur with
    | none =>
      simp only [loadStep, hne, Bool.false_eq_true, if_false]
      exact hh
    | some m =>
      simp only [loadStep, hne, Bool.false_eq_true, if_false, h2]
      exact hh
  · intro mp k v
    induction mp with
    | nil =>
      simp [setKey, List.lookup]
    | cons kv rest ih =>
      obtain ⟨k0, v0⟩ := kv
      by_cases hk : (k0 == k) = true
      · have hk2 : k = k0 := (beq_iff_eq.mp hk).symm
        simp [setKey, hk, List.lookup, hk2]
      · have hkk : ¬(k0 = k) := by
          intro hEq
          apply hk
          rw [hEq]
          exact beq_self_eq_true k
        have hk0 : (k0 == k) = false := by
          rw [beq_eq_false_iff_ne]
          exact hkk
        have hk2 : (k == k0) = false := by
          rw [beq_eq_false_iff_ne]
          exact fun hEq => hkk hEq.symm
        simp [setKey, hk0, List.lookup, hk2, ih]
  · intro pre post m countOf
    induction pre with
    | nil => simp [runQueriesRows]
    | cons q pre' ih =>
      obtain ⟨m0, fs0⟩ := q
      simp only [List.cons_append, runQueriesRows]
      congr 1
  · intro st line h
    rw [loadStep]
    simp [h]
  · intro mp line h1
    rw [loadStep]
    have hne : (stripChars line).isEmpty = false := by
      simpa using h1
    simp only [hne, Bool.false_eq_true, if_false]

/-- Witness for Claim C10 on concrete lines: the tabless header line "ab",
the blank line " " followed by the indented line " x", and an empty-field
measurement entry producing no result row. -/
theorem loader_robustness_witness :
    (¬stripChars ['a', 'b'] = [] ∧ lineIndented ['a', 'b'] = false ∧
      ¬('\t' ∈ stripChars ['a', 'b']) ∧
      loadStep ([], some ['m']) ['a', 'b'] =
        (setKey [] (stripChars ['a', 'b']) [], some (stripChars ['a', 'b']))) ∧
    (setKey [] ['a', 'b'] []).lookup ['a', 'b'] = some [] ∧
    runQueriesRows ([] ++ (['m'], []) :: []) (fun _ _ => 0) =
      runQueriesRows ([] ++ []) (fun _ _ => 0) ∧
    (stripChars [' '] = [] ∧
      loadStep ([(['m'], [['f']])], some ['m']) [' '] = ([(['m'], [['f']])], none)) ∧
    (¬stripChars [' ', 'x'] = [] ∧
      loadStep ([(['m'], [['f']])], none) [' ', 'x'] =
        headerStep [(['m'], [['f']])] (stripChars [' ', 'x'])) := by
  have h1 : ¬stripChars ['a', 'b'] = [] := by decide
  have h2 : lineIndented ['a', 'b'] = false := by decide
  have h3 : ¬('\t' ∈ stripChars ['a', 'b']) := by decide
  have h4 : stripChars [' '] = [] := by decide
  have h5 : ¬stripChars [' ', 'x'] = [] := by decide
  exact ⟨⟨h1, h2, h3, loader_robustness.1 ([], some ['m']) ['a', 'b'] h1 h2 h3⟩,
    loader_robustness.2.1 [] ['a', 'b'] [],
    loader_robustness.2.2.1 [] [] ['m'] (fun _ _ => 0),
    ⟨h4, loader_robustness.2.2.2.1 ([(['m'], [['f']])], some ['m']) [' '] h4⟩,
    ⟨h5, loader_robustness.2.2.2.2 [(['m'], [['f']])] [' ', 'x'] h5⟩⟩

end InfluxGrab
